import Mathlib

/-!
Verification of the WordRise word-tower rule engine.

Words are modelled as lists of Unicode code points (`List Nat`): Python
strings are sequences of code points, and every engine operation works
pointwise on them.  Pure functions of the engine become Lean functions;
the mutable `WordRiseGame` object becomes an explicit `GameState` record
threaded through the operations.  Wall-clock readings (`datetime.now()`)
are passed in as explicit `Nat` arguments.  Randomness and the Datamuse
network API are external effects; they are passed in as explicit function
parameters so that every behaviour of the external world is covered by
the theorems.

Namespace `App` embeds `src/app/game_engine.py`; namespace `Root` embeds
the near-duplicate engine `src/game_engine.py` (the copy with the
enhanced hint system).
-/

namespace WordRise

/-- A word: the sequence of code points of a Python string. -/
abbrev Word := List Nat

/-- Python `str.lower()` on one code point, restricted to the ASCII range
the engine actually handles (the word lists are ASCII). -/
def lowerCp (c : Nat) : Nat := if 65 ≤ c ∧ c ≤ 90 then c + 32 else c

/-- Python `str.upper()` on one code point (ASCII range). -/
def upperCp (c : Nat) : Nat := if 97 ≤ c ∧ c ≤ 122 then c - 32 else c

/-- Python `str.lower()` on a whole string. -/
def lowerW (w : Word) : Word := w.map lowerCp

/-- Python `str.upper()` on a whole string. -/
def upperW (w : Word) : Word := w.map upperCp

/-- Render a modelled word back into a Lean string (used only to build
the human-readable messages of the engine). -/
def wordStr (w : Word) : String := String.mk (w.map Char.ofNat)

/-- Inject a Lean string literal into the word model. -/
def wordOf (s : String) : Word := s.data.map Char.toNat

/-- The Latin-1 whitespace code points stripped by Python `str.strip()`
(space, tab, newline, carriage return, vertical tab, form feed, the
file/group/record/unit separators, next line, no-break space; the
remaining Unicode space characters lie far outside the alphabetic range
and behave identically in every proof below). -/
def isPySpace (c : Nat) : Bool :=
  c = 32 ∨ c = 9 ∨ c = 10 ∨ c = 13 ∨ c = 11 ∨ c = 12 ∨
    c = 28 ∨ c = 29 ∨ c = 30 ∨ c = 31 ∨ c = 133 ∨ c = 160

/-- Python `str.strip()`: drop whitespace from both ends. -/
def pyStrip (w : Word) : Word :=
  ((w.dropWhile isPySpace).reverse.dropWhile isPySpace).reverse

/-- Embeds `ScoreCalculator.UNCOMMON_LETTERS` = {q, z, x, j, k} (code points). -/
def UNCOMMON_LETTERS : List Nat := [113, 122, 120, 106, 107]

/-- Embeds `ScoreCalculator.UNCOMMON_BONUS`. -/
def UNCOMMON_BONUS : Nat := 5

/-- The per-word uncommon-letter bonus: the loop
`for letter in word.lower(): if letter in UNCOMMON_LETTERS: bonus += 5`. -/
def wordLetterBonus (w : Word) : Nat :=
  ((lowerW w).filter (fun c => UNCOMMON_LETTERS.contains c)).length * UNCOMMON_BONUS

/-- The letters added on top of the base word:
`for letter, count in new_counter.items(): if count > base_count:
added_letters.extend([letter] * (count - base_count))`.
`Counter` iteration visits each distinct letter once, so the loop is
modelled over the deduplicated candidate; only the length and membership
of this list matter to the engine (the iteration order of a Python dict
differs from `List.dedup` order, which is irrelevant here). -/
def addedLetters (b n : Word) : Word :=
  (n.dedup.map (fun c => List.replicate (n.count c - b.count c) c)).flatten

/-- The base-letter containment loop:
`for letter, count in base_counter.items(): if new_counter[letter] < count:
return False ...` passes exactly when this is true. -/
def usesAllBaseLetters (b n : Word) : Bool :=
  b.dedup.all (fun c => decide (b.count c ≤ n.count c))

/-- Python `sorted(word)` (insertion sort; only the sorted sequence
matters, not the algorithm). -/
def insertSorted (c : Nat) : Word → Word
  | [] => [c]
  | d :: ds => if c ≤ d then c :: d :: ds else d :: insertSorted c ds

/-- Python `sorted(word)`. -/
def sortW : Word → Word
  | [] => []
  | c :: cs => insertSorted c (sortW cs)

/-- The mutable state of a `WordRiseGame` object (both engine copies
hold exactly these fields).  Clock readings are naturals. -/
structure GameState where
  tower : List Word
  starting_word : Word
  start_time : Nat
  end_time : Option Nat
  hints_used : Nat
deriving Repr, DecidableEq

/-- Embeds `WordRiseGame.get_current_word`: `self.tower[-1] if self.tower else ""`. -/
def get_current_word (st : GameState) : Word := st.tower.getLast?.getD []

/-- Embeds `WordRiseGame.get_tower_height`. -/
def get_tower_height (st : GameState) : Nat := st.tower.length

/-- Embeds `WordValidator.get_words_of_length`: the `words_by_length.json` index
maps each length to the lexicon words of that length; it is modelled by
filtering the lexicon (the `lex` parameter stands for the loaded word
set, with the Datamuse API fallback disabled: the API is an external
network service, and with it unavailable or disabled `is_valid_word`
reduces to membership in the local set). -/
def get_words_of_length (lex : List Word) (n : Nat) : List Word :=
  lex.filter (fun w => decide (w.length = n))

/-- Embeds `WordRiseGame.__init__` with an explicit starting word. -/
def initGame (starting_word : Word) (now : Nat) : GameState :=
  { tower := [lowerW starting_word]
    starting_word := lowerW starting_word
    start_time := now
    end_time := none
    hints_used := 0 }

namespace App

/-- Embeds `TowerValidator.can_build_word` from `src/app/game_engine.py`:
length check, base-letter containment loop, added-letter count check,
with the messages of that file.  The containment loop over
`base_counter.items()` is `usesAllBaseLetters`; the added-letter list is
`addedLetters`. -/
def can_build_word (base_word new_word : Word) : Bool × String :=
  let b := lowerW base_word
  let n := lowerW new_word
  if n.length ≠ b.length + 1 then
    (false, "Word must be exactly " ++ toString (b.length + 1) ++ " letters long")
  else if ¬ usesAllBaseLetters b n then
    (false, "Must use all letters from \x27" ++ wordStr b ++ "\x27")
  else
    let added := addedLetters b n
    if added.length ≠ 1 then
      (false, "Must add exactly one new letter")
    else
      (true, "Added letter: " ++ wordStr [upperCp (added.headD 0)])

/-- Embeds `TowerValidator.get_added_letter` from `src/app/game_engine.py`:
the first letter of the candidate whose count exceeds its count in the
base word, or `None`.  (`Counter` iteration visits each distinct letter
of the candidate once; when several letters exceed, the Python dict
order may pick a different one than `dedup` order, but the engine and
the claims only use it when a single letter was added.) -/
def get_added_letter (base_word new_word : Word) : Option Nat :=
  let b := lowerW base_word
  let n := lowerW new_word
  n.dedup.find? (fun c => decide (b.count c < n.count c))

/-- One entry of the scoring breakdown of
`ScoreCalculator.calculate_tower_score`. -/
structure BreakdownEntry where
  level : Nat
  word : Word
  length : Nat
  multiplier : Nat
  base_points : Nat
  letter_bonus : Nat
deriving Repr, DecidableEq

/-- The result dictionary of `ScoreCalculator.calculate_tower_score`. -/
structure ScoreData where
  total_score : Nat
  base_score : Nat
  letter_bonus : Nat
  speed_bonus : Nat
  height : Nat
  time_seconds : Option Nat
  breakdown : List BreakdownEntry
deriving Repr, DecidableEq

/-- Embeds `ScoreCalculator.calculate_tower_score` from `src/app/game_engine.py`.
Notes on the embedding:
* the early return for an empty tower omits the `time_seconds` key of
  the dictionary; it is modelled as `none`;
* `speed_bonus` guard `if time_seconds and time_seconds < 300`: Python
  truthiness makes both `None` and `0` fail the guard, hence the
  explicit `t ≠ 0` conjunct;
* `int((base_score + letter_bonus) * 0.1)` is `(base_score +
  letter_bonus) / 10` in exact arithmetic; the IEEE-double computation
  agrees with the exact one for every total below 2^52, far beyond any
  reachable score, so the embedding uses natural division. -/
def calculate_tower_score (tower : List Word) (time_seconds : Option Nat := none) :
    ScoreData :=
  if tower = [] then
    { total_score := 0
      base_score := 0
      letter_bonus := 0
      speed_bonus := 0
      height := 0
      time_seconds := none
      breakdown := [] }
  else
    let breakdown := tower.enum.map (fun p =>
      { level := p.1 + 1
        word := p.2
        length := p.2.length
        multiplier := p.1 + 1
        base_points := p.2.length * (p.1 + 1)
        letter_bonus := wordLetterBonus p.2 : BreakdownEntry })
    let base_score := (breakdown.map BreakdownEntry.base_points).sum
    let letter_bonus := (breakdown.map BreakdownEntry.letter_bonus).sum
    let speed_bonus :=
      match time_seconds with
      | some t => if t ≠ 0 ∧ t < 300 then (base_score + letter_bonus) / 10 else 0
      | none => 0
    { total_score := base_score + letter_bonus + speed_bonus
      base_score := base_score
      letter_bonus := letter_bonus
      speed_bonus := speed_bonus
      height := tower.length
      time_seconds := time_seconds
      breakdown := breakdown }

/-- The result dictionary of `WordRiseGame.add_word`: the failure shape
carries `success: False` and a message; the success shape carries the
word, added letter, new height and sorted letters. -/
inductive AddOutcome where
  | err (message : String)
  | ok (message : String) (word : Word) (added_letter : Option Nat)
      (tower_height : Nat) (current_letters : Word)
deriving Repr, DecidableEq

/-- The `success` field of an `add_word` result. -/
def AddOutcome.success : AddOutcome → Bool
  | .err _ => false
  | .ok .. => true

/-- Embeds `WordRiseGame.add_word` from `src/app/game_engine.py`.  The word is
lowercased and stripped; it must be in the lexicon (`lex` models the
loaded word set, API fallback disabled), not already used, and buildable
on the current word; on success it is appended to the tower. -/
def add_word (lex : List Word) (st : GameState) (w : Word) : AddOutcome × GameState :=
  let word := pyStrip (lowerW w)
  if ¬ lex.contains word then
    (.err ("\x27" ++ wordStr word ++ "\x27 is not a valid word"), st)
  else if st.tower.contains word then
    (.err ("\x27" ++ wordStr word ++ "\x27 has already been used"), st)
  else
    let current := get_current_word st
    let v := can_build_word current word
    if ¬ v.1 then
      (.err v.2, st)
    else
      let tower2 := st.tower ++ [word]
      (.ok v.2 word (get_added_letter current word) tower2.length (sortW word),
        { st with tower := tower2 })

/-- The result dictionary of `WordRiseGame.undo_last_word`. -/
inductive UndoOutcome where
  | err (message : String)
  | ok (message : String) (tower_height : Nat) (current_word : Word)
deriving Repr, DecidableEq

/-- The `success` field of an `undo_last_word` result. -/
def UndoOutcome.success : UndoOutcome → Bool
  | .err _ => false
  | .ok .. => true

/-- Embeds `WordRiseGame.undo_last_word`: pop the last word unless the tower is
down to the starting word. -/
def undo_last_word (st : GameState) : UndoOutcome × GameState :=
  if st.tower.length ≤ 1 then
    (.err "Cannot undo starting word", st)
  else
    let removed := st.tower.getLast?.getD []
    let st2 := { st with tower := st.tower.dropLast }
    (.ok ("Removed \x27" ++ wordStr removed ++ "\x27") st2.tower.length
      (get_current_word st2), st2)

/-- Embeds `WordRiseGame.reset_game`: back to the starting word, restart the
clock, clear the end stamp and the hint counter. -/
def reset_game (st : GameState) (now : Nat) : GameState :=
  { st with
    tower := [st.starting_word]
    start_time := now
    end_time := none
    hints_used := 0 }

/-- The result dictionary of `WordRiseGame.end_game` (the score
dictionary is merged in; its `time_seconds` key carries the same value,
so the merge is modelled as a nested record). -/
structure EndResult where
  tower : List Word
  height : Nat
  starting_word : Word
  time_seconds : Option Nat
  hints_used : Nat
  score : ScoreData
deriving Repr, DecidableEq

/-- Embeds `WordRiseGame.end_game`: stamp the end time, compute the elapsed
seconds and the final score.  (Both timestamps are always set, so the
`if self.start_time and self.end_time` guard always passes.) -/
def end_game (st : GameState) (now : Nat) : EndResult × GameState :=
  let st2 := { st with end_time := some now }
  let time_taken : Option Nat := some (now - st.start_time)
  ({ tower := st2.tower
     height := st2.tower.length
     starting_word := st2.starting_word
     time_seconds := time_taken
     hints_used := st2.hints_used
     score := calculate_tower_score st2.tower time_taken }, st2)

/-- The result dictionary of `WordRiseGame.get_hint` in
`src/app/game_engine.py`: failure carries `success: False` and a
message; success carries the hint text and candidate count. -/
inductive HintOutcome where
  | err (message : String)
  | ok (hint : String) (possible_words_count : Nat)
deriving Repr, DecidableEq

/-- The `success` field of a hint result. -/
def HintOutcome.success : HintOutcome → Bool
  | .err _ => false
  | .ok .. => true

/-- The `hints` dictionary of `WordRiseGame.get_hint` together with the
`hints.get(hint_type, hints[definition-key])` lookup. -/
def hintText (hint_word : Word) (target_length : Nat) (hint_type : String) : String :=
  if hint_type = "starts_with" then
    "Try a word starting with \x27" ++ wordStr [upperCp (hint_word.headD 0)] ++ "\x27"
  else if hint_type = "contains" then
    "Try a word containing \x27" ++
      wordStr [upperCp (hint_word.getD (hint_word.length / 2) 0)] ++ "\x27"
  else if hint_type = "length" then
    "The next word should be " ++ toString target_length ++ " letters long"
  else
    "Try a " ++ toString target_length ++ "-letter word (like \x27" ++
      wordStr (hint_word.take 2) ++ "...\x27)"

/-- Embeds `WordRiseGame.get_hint` from `src/app/game_engine.py`.  The
`random.choice` over the candidate pool is modelled by the explicit
`choose` parameter, so the theorems quantify over every possible pick. -/
def get_hint (lex : List Word) (choose : List Word → Word) (st : GameState)
    (hint_type : String) : HintOutcome × GameState :=
  let st2 := { st with hints_used := st.hints_used + 1 }
  let current := get_current_word st
  let target_length := current.length + 1
  let possible := (get_words_of_length lex target_length).filter
    (fun w => !st.tower.contains w && (can_build_word current w).1)
  if possible.isEmpty then
    (.err "No more words possible! Great job reaching the top!", st2)
  else
    let hint_word := choose possible
    (.ok (hintText hint_word target_length hint_type) possible.length, st2)

/-- The result dictionary of `WordRiseGame.get_game_state`. -/
structure StateView where
  tower : List Word
  height : Nat
  current_word : Word
  starting_word : Word
  hints_used : Nat
  is_active : Bool
deriving Repr, DecidableEq

/-- Embeds `WordRiseGame.get_game_state`. -/
def get_game_state (st : GameState) : StateView :=
  { tower := st.tower
    height := st.tower.length
    current_word := get_current_word st
    starting_word := st.starting_word
    hints_used := st.hints_used
    is_active := st.end_time.isNone }

end App

namespace Root

/-- Embeds `TowerValidator.can_build_word` from `src/game_engine.py`: identical
to the `src/app` copy except for the wording of the success message. -/
def can_build_word (base_word new_word : Word) : Bool × String :=
  let b := lowerW base_word
  let n := lowerW new_word
  if n.length ≠ b.length + 1 then
    (false, "Word must be exactly " ++ toString (b.length + 1) ++ " letters long")
  else if ¬ usesAllBaseLetters b n then
    (false, "Must use all letters from \x27" ++ wordStr b ++ "\x27")
  else
    let added := addedLetters b n
    if added.length ≠ 1 then
      (false, "Must add exactly one new letter")
    else
      (true, "Added \x27" ++ wordStr [upperCp (added.headD 0)] ++
        "\x27 to build \x27" ++ wordStr (upperW n) ++ "\x27!")

/-- Embeds `TowerValidator.get_added_letter` from `src/game_engine.py`: returns
the uppercased added letter as a string, or the empty string. -/
def get_added_letter (base_word new_word : Word) : Word :=
  let b := lowerW base_word
  let n := lowerW new_word
  match n.dedup.find? (fun c => decide (b.count c < n.count c)) with
  | some c => [upperCp c]
  | none => []

/-- The external effects used by the enhanced `get_hint`: the process
random number generator (`pickMsg`, `pickWord`, `sample`, `coin` for
`random.choice`, `random.sample` and `random.random() < 0.5`) and the
Datamuse API (`apiEnabled` for `validator.use_api_fallback`, `freq` for
`get_word_frequency`, `defn` for `get_word_definition`; a `some` value
of `defn` stands for a non-empty definition string, matching the
truthiness test the Python code applies to it).  Quantifying over an
arbitrary `Ext` covers every behaviour of these effects. -/
structure Ext where
  pickMsg : List String → String
  pickWord : List Word → Word
  sample : Nat → Nat → List Nat
  coin : Bool
  apiEnabled : Bool
  freq : Word → Nat
  defn : Word → Option String

/-- The result dictionary of `WordRiseGame.get_hint` in
`src/game_engine.py`: the no-words shape carries `success: False`,
`no_words_available: True`, the tower height and the uppercased current
word; the success shape carries the hint text, candidate count, current
height and target length. -/
inductive HintOutcome where
  | noMoves (message : String) (tower_height : Nat) (final_word : Word)
  | ok (hint : String) (possible_words_count : Nat) (current_height : Nat)
      (target_length : Nat)
deriving Repr, DecidableEq

/-- The `success` field of an enhanced hint result. -/
def HintOutcome.success : HintOutcome → Bool
  | .noMoves .. => false
  | .ok .. => true

/-- The `no_words_available` field (present and `True` exactly in the
no-words shape). -/
def HintOutcome.no_words_available : HintOutcome → Bool
  | .noMoves .. => true
  | .ok .. => false

/-- The `tower_height` field of the no-words shape. -/
def HintOutcome.height? : HintOutcome → Option Nat
  | .noMoves _ h _ => some h
  | .ok .. => none

/-- The `final_word` field of the no-words shape. -/
def HintOutcome.finalWord? : HintOutcome → Option Word
  | .noMoves _ _ w => some w
  | .ok .. => none

/-- Stable insertion into a list sorted by strictly decreasing key
(models `list.sort(key=..., reverse=True)`, which is stable). -/
def insertDescBy (f : Word → Nat) (w : Word) : List Word → List Word
  | [] => [w]
  | v :: vs => if f v < f w then w :: v :: vs else v :: insertDescBy f w vs

/-- Stable sort by decreasing key. -/
def sortDescBy (f : Word → Nat) : List Word → List Word
  | [] => []
  | w :: ws => insertDescBy f w (sortDescBy f ws)

/-- The masked-pattern rendering: position `i` shows the uppercased
letter when `i` is among the revealed positions, else an underscore
(code point 95). -/
def patternOf (w : Word) (reveal : List Nat) : Word :=
  w.enum.map (fun p => if reveal.contains p.1 then upperCp p.2 else 95)

/-- The four celebratory no-words messages of `src/game_engine.py`
(the file stores them with a mangled-encoding emoji prefix, reproduced
here by its exact code points). -/
def noMovesMessages (height target_length : Nat) (current_word : Word) : List String :=
  ["üéâ Incredible! You\x27ve reached the maximum height of " ++
     toString height ++ " words!",
   "üèÜ Amazing job! No more words can be built from \x27" ++
     wordStr (upperW current_word) ++ "\x27.",
   "üëè You\x27ve mastered this tower! There are no available " ++
     toString target_length ++ "-letter words using these letters.",
   "‚≠ê Outstanding! Your tower of " ++ toString height ++
     " words is complete - no further words possible!"]

/-- The fallback hint string used by several branches: first letter of
the candidate, uppercased. -/
def startsWithHint (hint_word : Word) (target_length : Nat) : String :=
  "Try a " ++ toString target_length ++ "-letter word starting with \x27" ++
    wordStr [upperCp (hint_word.headD 0)] ++ "\x27"

/-- The hint-text generation of the enhanced `get_hint` (lines 574-635
of `src/game_engine.py`), one branch per hint type, with `smart` as the
fallthrough branch. -/
def enhancedHintText (ext : Ext) (st : GameState) (hint_word : Word)
    (target_length : Nat) (hint_type : String) : String :=
  if hint_type = "pattern" then
    let reveal := ext.sample hint_word.length (min 2 hint_word.length)
    "Try a " ++ toString target_length ++ "-letter word with pattern: " ++
      wordStr (patternOf hint_word reveal)
  else if hint_type = "starts_with" then
    startsWithHint hint_word target_length
  else if hint_type = "contains" then
    "Try a " ++ toString target_length ++ "-letter word containing the letter \x27" ++
      wordStr [upperCp (hint_word.getD (hint_word.length / 2) 0)] ++ "\x27"
  else if hint_type = "definition" then
    match (if ext.apiEnabled then ext.defn hint_word else none) with
    | some d => "Definition: " ++ d
    | none =>
      let first_half := hint_word.length / 2
      "Try a " ++ toString target_length ++ "-letter word (like \x27" ++
        wordStr (upperW (hint_word.take first_half)) ++ "...\x27)"
  else if hint_type = "length" then
    "The next word should be " ++ toString target_length ++ " letters long"
  else
    let height := st.tower.length
    if height ≤ 3 then
      "Try a " ++ toString target_length ++ "-letter word starting with \x27" ++
        wordStr (upperW (hint_word.take 2)) ++ "...\x27"
    else if height ≤ 6 then
      let reveal_count := max 1 (target_length / 3)
      let reveal := ext.sample hint_word.length reveal_count
      "Try matching this pattern: " ++ wordStr (patternOf hint_word reveal)
    else
      if ext.apiEnabled ∧ ext.coin then
        match ext.defn hint_word with
        | some d => "Hint: " ++ d
        | none => startsWithHint hint_word target_length
      else
        startsWithHint hint_word target_length

/-- Embeds `WordRiseGame.get_hint` from `src/game_engine.py` (enhanced hint
system).  The counter is incremented on entry; the candidate pool is the
lexicon words of the target length, unused and buildable; an empty pool
yields the no-words result; otherwise, when the API is enabled and more
than one candidate exists, the first 20 candidates are reordered by
decreasing Datamuse frequency and truncated to 5, and a random candidate
drives the rendered hint. -/
def get_hint (lex : List Word) (ext : Ext) (st : GameState)
    (hint_type : String) : HintOutcome × GameState :=
  let st2 := { st with hints_used := st.hints_used + 1 }
  let current := get_current_word st
  let target_length := current.length + 1
  let possible := (get_words_of_length lex target_length).filter
    (fun w => !st.tower.contains w && (can_build_word current w).1)
  if possible.isEmpty then
    let height := st.tower.length
    (.noMoves (ext.pickMsg (noMovesMessages height target_length current))
      height (upperW current), st2)
  else
    let possible2 :=
      if ext.apiEnabled ∧ possible.length > 1 then
        (sortDescBy ext.freq (possible.take 20)).take 5
      else possible
    let hint_word :=
      ext.pickWord (if possible2.length > 5 then possible2.take 5 else possible2)
    (.ok (enhancedHintText ext st hint_word target_length hint_type)
      possible2.length st.tower.length target_length, st2)

end Root

/-- The tower invariants of the specification: non-empty with the
starting word at index 0, no repeated word, and every adjacent pair
buildable. -/
def Inv (st : GameState) : Prop :=
  st.tower ≠ [] ∧ st.tower.head? = some st.starting_word ∧ st.tower.Nodup ∧
    List.Chain' (fun a b => (App.can_build_word a b).1 = true) st.tower

/-- Concrete word: "art". -/
def artW : Word := wordOf "art"

/-- Concrete word: "tart". -/
def tartW : Word := wordOf "tart"

/-- Concrete word: "start". -/
def startW : Word := wordOf "start"

/-- Concrete word: "cat". -/
def catW : Word := wordOf "cat"

/-- Concrete word: "dog". -/
def dogW : Word := wordOf "dog"

/-- A two-word lexicon for the concrete scenarios. -/
def lexArtTart : List Word := [artW, tartW]

/-- A lexicon in which "art" has no successor of length 4. -/
def lexArtOnly : List Word := [artW]

/-- A fresh session started on "art" at clock 0. -/
def sessionArt : GameState :=
  { tower := [artW]
    starting_word := artW
    start_time := 0
    end_time := none
    hints_used := 0 }

/-- The same session after `end_game` stamped it at clock 5. -/
def sessionEnded : GameState :=
  { tower := [artW]
    starting_word := artW
    start_time := 0
    end_time := some 5
    hints_used := 0 }

/-- A concrete instantiation of the external effects (first-element
choices, no API). -/
def extDefault : Root.Ext :=
  { pickMsg := fun l => l.headD ""
    pickWord := fun l => l.headD []
    sample := fun _ k => List.range k
    coin := false
    apiEnabled := false
    freq := fun _ => 0
    defn := fun _ => none }

/-- A concrete candidate-choice function for the `src/app` hint engine. -/
def chooseHead : List Word → Word := fun l => l.headD []

/-! ### Lemmas about lowercasing and stripping -/

theorem lowerCp_lowerCp (c : Nat) : lowerCp (lowerCp c) = lowerCp c := by
  simp only [lowerCp]
  split <;> (try split) <;> omega

theorem lowerW_lowerW (w : Word) : lowerW (lowerW w) = lowerW w := by
  simp [lowerW, List.map_map, Function.comp_def, lowerCp_lowerCp]

theorem isPySpace_lowerCp (c : Nat) : isPySpace (lowerCp c) = isPySpace c := by
  simp only [lowerCp, isPySpace]
  split <;> [skip; rfl]
  simp only [decide_eq_decide]
  omega

theorem lowerW_dropWhile (w : Word) :
    (lowerW w).dropWhile isPySpace = lowerW (w.dropWhile isPySpace) := by
  induction w with
  | nil => rfl
  | cons a l ih =>
    simp only [lowerW, List.map_cons, List.dropWhile_cons, isPySpace_lowerCp]
    split <;> simp_all [lowerW]

theorem lowerW_reverse (w : Word) : lowerW w.reverse = (lowerW w).reverse := by
  simp [lowerW, List.map_reverse]

theorem lowerW_pyStrip (w : Word) : lowerW (pyStrip w) = pyStrip (lowerW w) := by
  simp only [pyStrip, ← lowerW_reverse, lowerW_dropWhile]

theorem dropWhile_dropWhile (p : Nat → Bool) (l : List Nat) :
    (l.dropWhile p).dropWhile p = l.dropWhile p := by
  induction l with
  | nil => rfl
  | cons a l ih =>
    simp only [List.dropWhile_cons]
    split <;> simp_all [List.dropWhile_cons]

theorem dropWhile_suffix (p : Nat → Bool) (l : List Nat) : l.dropWhile p <:+ l := by
  induction l with
  | nil => exact List.suffix_rfl
  | cons a l ih =>
    simp only [List.dropWhile_cons]
    split
    · exact ih.trans (List.suffix_cons a l)
    · exact List.suffix_rfl

theorem dropWhile_eq_self_of_prefix {p : Nat → Bool} {y u : List Nat}
    (hpre : y <+: u) (hu : u.dropWhile p = u) : y.dropWhile p = y := by
  obtain ⟨t, rfl⟩ := hpre
  cases y with
  | nil => rfl
  | cons a ys =>
    by_cases hpa : p a = true
    · exfalso
      rw [List.cons_append, List.dropWhile_cons, if_pos hpa] at hu
      have hlen := (dropWhile_suffix p (ys ++ t)).length_le
      rw [hu] at hlen
      simp only [List.length_cons] at hlen
      omega
    · simp [List.dropWhile_cons, hpa]

theorem pyStrip_pyStrip (w : Word) : pyStrip (pyStrip w) = pyStrip w := by
  set p := isPySpace
  set u := w.dropWhile p with hu
  have hu2 : u.dropWhile p = u := dropWhile_dropWhile p w
  set y := (u.reverse.dropWhile p).reverse with hy
  have hysuf : u.reverse.dropWhile p <:+ u.reverse := dropWhile_suffix p u.reverse
  have hypre : y <+: u := by
    have := List.reverse_prefix.mpr hysuf
    simpa [hy] using this
  have hy1 : y.dropWhile p = y := dropWhile_eq_self_of_prefix hypre hu2
  have hy2 : (y.reverse.dropWhile p) = y.reverse := by
    have : y.reverse = u.reverse.dropWhile p := by simp [hy]
    rw [this, dropWhile_dropWhile]
  show ((y.dropWhile p).reverse.dropWhile p).reverse = y
  rw [hy1, hy2, List.reverse_reverse]

theorem normalize_idem (w : Word) :
    pyStrip (lowerW (pyStrip (lowerW w))) = pyStrip (lowerW w) := by
  rw [lowerW_pyStrip, lowerW_lowerW, pyStrip_pyStrip]

theorem lowerW_normalize (w : Word) :
    lowerW (pyStrip (lowerW w)) = pyStrip (lowerW w) := by
  rw [lowerW_pyStrip, lowerW_lowerW]

/-! ### The letter-count loops of the validator, as multiset facts -/

theorem usesAllBaseLetters_iff (b n : Word) :
    usesAllBaseLetters b n = true ↔
      (Multiset.ofList b : Multiset Nat) ≤ Multiset.ofList n := by
  rw [Multiset.le_iff_count]
  simp only [usesAllBaseLetters, List.all_eq_true, List.mem_dedup,
    decide_eq_true_eq, Multiset.coe_count]
  constructor
  · intro h a
    by_cases ha : a ∈ b
    · exact h a ha
    · simp [List.count_eq_zero_of_not_mem ha]
  · intro h a _
    exact h a

theorem addedLetters_length (b n : Word) :
    (addedLetters b n).length =
      Multiset.card ((Multiset.ofList n : Multiset Nat) - Multiset.ofList b) := by
  have h1 : (addedLetters b n).length =
      (n.dedup.map (fun c => n.count c - b.count c)).sum := by
    simp [addedLetters, List.length_flatten, List.map_map, Function.comp_def]
  rw [h1]
  have h2 : ((Multiset.ofList n : Multiset Nat) - Multiset.ofList b).toFinset ⊆
      n.toFinset := by
    intro a ha
    rw [Multiset.mem_toFinset] at ha
    rw [List.mem_toFinset]
    have hc := Multiset.count_pos.mpr ha
    rw [Multiset.count_sub, Multiset.coe_count, Multiset.coe_count] at hc
    have hc2 : 0 < n.count a := by omega
    exact List.count_pos_iff.mp hc2
  have h3 := (Multiset.toFinset_sum_count_eq
    ((Multiset.ofList n : Multiset Nat) - Multiset.ofList b)).symm
  rw [h3, Finset.sum_subset h2 ?_]
  · have h4 : n.toFinset = n.dedup.toFinset := Finset.ext fun a => by simp
    rw [h4, List.sum_toFinset _ n.nodup_dedup]
    congr 1
    refine List.map_congr_left fun a _ => ?_
    rw [Multiset.count_sub, Multiset.coe_count, Multiset.coe_count]
  · intro a _ ha
    exact Multiset.count_eq_zero.mpr fun hmem => ha (Multiset.mem_toFinset.mpr hmem)

theorem can_build_word_fst (base cand : Word) :
    (App.can_build_word base cand).1 =
      (decide ((lowerW cand).length = (lowerW base).length + 1) &&
        usesAllBaseLetters (lowerW base) (lowerW cand) &&
        decide ((addedLetters (lowerW base) (lowerW cand)).length = 1)) := by
  simp only [App.can_build_word]
  split
  · next h => simp [h]
  · next h =>
    split
    · next h2 => simp [not_not.mp h, h2]
    · next h2 =>
      split
      · next h3 => simp [not_not.mp h, h3]

      · next h3 => simp [not_not.mp h, not_not.mp (by simpa using h2), not_not.mp h3]

theorem root_can_build_word_fst_eq (base cand : Word) :
    (Root.can_build_word base cand).1 =
      (decide ((lowerW cand).length = (lowerW base).length + 1) &&
        usesAllBaseLetters (lowerW base) (lowerW cand) &&
        decide ((addedLetters (lowerW base) (lowerW cand)).length = 1)) := by
  simp only [Root.can_build_word]
  split
  · next h => simp [h]
  · next h =>
    split
    · next h2 => simp [not_not.mp h, h2]
    · next h2 =>
      split
      · next h3 => simp [not_not.mp h, h3]
      · next h3 => simp [not_not.mp h, not_not.mp (by simpa using h2), not_not.mp h3]

theorem root_can_build_word_fst (base cand : Word) :
    (Root.can_build_word base cand).1 = (App.can_build_word base cand).1 := by
  rw [root_can_build_word_fst_eq, can_build_word_fst]

theorem can_build_word_fst_iff (base cand : Word) :
    (App.can_build_word base cand).1 = true ↔
      ((lowerW cand).length = (lowerW base).length + 1 ∧
        (Multiset.ofList (lowerW base) : Multiset Nat) ≤ Multiset.ofList (lowerW cand) ∧
        Multiset.card
          ((Multiset.ofList (lowerW cand) : Multiset Nat) -
            Multiset.ofList (lowerW base)) = 1) := by
  rw [can_build_word_fst]
  simp only [Bool.and_eq_true, decide_eq_true_eq, usesAllBaseLetters_iff,
    addedLetters_length, and_assoc]

/-! ### Sums over enumerated towers -/

theorem enum_map_F (l : List Word) (F : Nat → Word → Nat) :
    l.enum.map (fun p => F p.1 p.2) =
      (List.range l.length).map (fun i => F i (l.getD i [])) := by
  induction l generalizing F with
  | nil => rfl
  | cons a l ih =>
    rw [List.enum_cons', List.length_cons, List.range_succ_eq_map]
    simp only [List.map_cons, List.map_map, List.getD_cons_zero, List.getD_cons_succ,
      Function.comp_def, Prod.map_fst, Prod.map_snd, id]
    exact congrArg (List.cons (F 0 a)) (ih fun i w => F (i + 1) w)

theorem range_map_sum (n : Nat) (f : Nat → Nat) :
    ((List.range n).map f).sum = ∑ i in Finset.range n, f i := by
  induction n with
  | zero => rfl
  | succ m ih =>
    rw [List.range_succ, List.map_append, List.sum_append, Finset.sum_range_succ, ih]
    simp

theorem enum_map_sum (l : List Word) (F : Nat → Word → Nat) :
    (l.enum.map (fun p => F p.1 p.2)).sum = ∑ i in Finset.range l.length, F i (l.getD i []) := by
  rw [enum_map_F, range_map_sum]

/-! ### Claim theorems -/

theorem calculate_tower_score_height (tower : List Word) (t : Option Nat) :
    (App.calculate_tower_score tower t).height = tower.length := by
  by_cases h : tower = []
  · subst h
    rfl
  · simp [App.calculate_tower_score, if_neg h]

theorem calculate_tower_score_base (tower : List Word) (t : Option Nat) :
    (App.calculate_tower_score tower t).base_score =
      ∑ i in Finset.range tower.length, (tower.getD i []).length * (i + 1) := by
  by_cases h : tower = []
  · subst h
    rfl
  · simp only [App.calculate_tower_score, if_neg h, List.map_map]
    exact enum_map_sum tower (fun i w => w.length * (i + 1))

theorem calculate_tower_score_letter (tower : List Word) (t : Option Nat) :
    (App.calculate_tower_score tower t).letter_bonus =
      ∑ i in Finset.range tower.length, wordLetterBonus (tower.getD i []) := by
  by_cases h : tower = []
  · subst h
    rfl
  · simp only [App.calculate_tower_score, if_neg h, List.map_map]
    exact enum_map_sum tower (fun _ w => wordLetterBonus w)

theorem calculate_tower_score_total (tower : List Word) (t : Option Nat) :
    (App.calculate_tower_score tower t).total_score =
      (App.calculate_tower_score tower t).base_score +
        (App.calculate_tower_score tower t).letter_bonus +
        (App.calculate_tower_score tower t).speed_bonus := by
  by_cases h : tower = []
  · subst h
    rfl
  · simp only [App.calculate_tower_score, if_neg h]

theorem calculate_tower_score_speed (tower : List Word) (t : Option Nat) :
    (App.calculate_tower_score tower t).speed_bonus =
      match t with
      | some s =>
        if s ≠ 0 ∧ s < 300 then
          ((App.calculate_tower_score tower t).base_score +
            (App.calculate_tower_score tower t).letter_bonus) / 10
        else 0
      | none => 0 := by
  by_cases h : tower = []
  · subst h
    cases t with
    | none => rfl
    | some s =>
      show (0 : Nat) = if s ≠ 0 ∧ s < 300 then _ else 0
      split <;> simp [App.calculate_tower_score]
  · simp only [App.calculate_tower_score, if_neg h]
    rfl

theorem calculate_tower_score_breakdown (tower : List Word) (t : Option Nat) :
    (App.calculate_tower_score tower t).breakdown =
      (List.range tower.length).map (fun i =>
        { level := i + 1
          word := tower.getD i []
          length := (tower.getD i []).length
          multiplier := i + 1
          base_points := (tower.getD i []).length * (i + 1)
          letter_bonus := wordLetterBonus (tower.getD i []) : App.BreakdownEntry }) := by
  by_cases h : tower = []
  · subst h
    rfl
  · simp only [App.calculate_tower_score, if_neg h]
    show tower.enum.map (fun p =>
      (fun (i : Nat) (w : Word) =>
        { level := i + 1
          word := w
          length := w.length
          multiplier := i + 1
          base_points := w.length * (i + 1)
          letter_bonus := wordLetterBonus w : App.BreakdownEntry }) p.1 p.2) = _
    have key : ∀ (l : List Word) (F : Nat → Word → App.BreakdownEntry),
        l.enum.map (fun p => F p.1 p.2) =
          (List.range l.length).map (fun i => F i (l.getD i [])) := by
      intro l F
      induction l generalizing F with
      | nil => rfl
      | cons a l ih =>
        rw [List.enum_cons', List.length_cons, List.range_succ_eq_map]
        simp only [List.map_cons, List.map_map, List.getD_cons_zero,
          List.getD_cons_succ, Function.comp_def, Prod.map_fst, Prod.map_snd, id]
        exact congrArg (List.cons (F 0 a)) (ih fun i w => F (i + 1) w)
    exact key tower (fun i w =>
      { level := i + 1
        word := w
        length := w.length
        multiplier := i + 1
        base_points := w.length * (i + 1)
        letter_bonus := wordLetterBonus w })

theorem wordLetterBonus_eq (w : Word) :
    wordLetterBonus w = 5 * (lowerW w).countP (fun c => decide (c ∈ UNCOMMON_LETTERS)) := by
  simp only [wordLetterBonus, UNCOMMON_BONUS, List.countP_eq_length_filter, Nat.mul_comm]
  congr 2
  exact List.filter_congr fun c _ => by simp

theorem calculate_tower_score_speed_none (tower : List Word) :
    (App.calculate_tower_score tower none).speed_bonus = 0 := by
  rw [calculate_tower_score_speed]

theorem calculate_tower_score_speed_some (tower : List Word) (s : Nat) :
    (App.calculate_tower_score tower (some s)).speed_bonus =
      if s ≠ 0 ∧ s < 300 then
        ((App.calculate_tower_score tower (some s)).base_score +
          (App.calculate_tower_score tower (some s)).letter_bonus) / 10
      else 0 := by
  rw [calculate_tower_score_speed]

/-- C3 counterexample: on the tower ["art", "tart", "start"] with
`elapsedSeconds = 0` — provided and below 300 — the code yields speed
bonus 0, while the claimed formula floor(10% of 26) yields 2. -/
theorem c3_counterexample :
    (App.calculate_tower_score [artW, tartW, startW] (some 0)).speed_bonus = 0 ∧
      ((App.calculate_tower_score [artW, tartW, startW] (some 0)).base_score +
        (App.calculate_tower_score [artW, tartW, startW] (some 0)).letter_bonus) / 10 = 2 := by
  constructor <;> decide

/-- C3 (amended): `scoreTower` returns the claimed base score, letter
bonus, total, height and per-level breakdown, but the speed bonus
applies exactly when `elapsedSeconds` is provided, nonzero, and below
300 (an elapsed time of 0 is treated like an absent one); the empty
tower is the `tower.length = 0` instance, with empty sums and empty
breakdown. -/
theorem c3_scoreTower_amended :
    ∀ (tower : List Word) (t : Option Nat),
      (App.calculate_tower_score tower t).base_score =
          ∑ i in Finset.range tower.length, (tower.getD i []).length * (i + 1) ∧
      (App.calculate_tower_score tower t).letter_bonus =
          ∑ i in Finset.range tower.length,
            5 * (lowerW (tower.getD i [])).countP (fun c => decide (c ∈ UNCOMMON_LETTERS)) ∧
      (App.calculate_tower_score tower t).total_score =
          (App.calculate_tower_score tower t).base_score +
            (App.calculate_tower_score tower t).letter_bonus +
            (App.calculate_tower_score tower t).speed_bonus ∧
      (App.calculate_tower_score tower t).height = tower.length ∧
      (App.calculate_tower_score tower t).breakdown =
          (List.range tower.length).map (fun i =>
            { level := i + 1
              word := tower.getD i []
              length := (tower.getD i []).length
              multiplier := i + 1
              base_points := (tower.getD i []).length * (i + 1)
              letter_bonus := wordLetterBonus (tower.getD i []) : App.BreakdownEntry }) ∧
      (∀ s, t = some s → s ≠ 0 → s < 300 →
        (App.calculate_tower_score tower t).speed_bonus =
          ((App.calculate_tower_score tower t).base_score +
            (App.calculate_tower_score tower t).letter_bonus) / 10) ∧
      ((t = none ∨ t = some 0 ∨ ∃ s, t = some s ∧ 300 ≤ s) →
        (App.calculate_tower_score tower t).speed_bonus = 0) := by
  intro tower t
  refine ⟨calculate_tower_score_base tower t, ?_, calculate_tower_score_total tower t,
    calculate_tower_score_height tower t, calculate_tower_score_breakdown tower t,
    ?_, ?_⟩
  · rw [calculate_tower_score_letter]
    exact Finset.sum_congr rfl fun i _ => wordLetterBonus_eq _
  · rintro s rfl h0 h300
    rw [calculate_tower_score_speed_some, if_pos (And.intro h0 h300)]
  · rintro (rfl | rfl | ⟨s, rfl, hs⟩)
    · exact calculate_tower_score_speed_none tower
    · rw [calculate_tower_score_speed_some, if_neg (by omega)]
    · rw [calculate_tower_score_speed_some, if_neg (by omega)]

/-- C3 witness: the amended speed-bonus clause applied to the tower
["art", "tart", "start"] with elapsed time 200. -/
theorem c3_witness :
    (App.calculate_tower_score [artW, tartW, startW] (some 200)).speed_bonus =
      ((App.calculate_tower_score [artW, tartW, startW] (some 200)).base_score +
        (App.calculate_tower_score [artW, tartW, startW] (some 200)).letter_bonus) / 10 :=
  (c3_scoreTower_amended [artW, tartW, startW] (some 200)).2.2.2.2.2.1 200 rfl
    (by decide) (by decide)

/-- C6 counterexample: on the one-word tower ["art"] the totals at 200
and at 400 elapsed seconds are both 3, so the 200-second score is not
strictly higher. -/
theorem c6_counterexample :
    ¬ ((App.calculate_tower_score [artW] (some 400)).total_score <
        (App.calculate_tower_score [artW] (some 200)).total_score) := by
  decide

/-- C6 (amended): scoring a tower with `elapsedSeconds = 200` yields a
total at least as high as with `elapsedSeconds = 400`, and strictly
higher exactly when the pre-bonus score (base plus letter bonus) is at
least 10 — in particular for the empty tower or any tower scoring below
10 the two totals coincide. -/
theorem c6_speed_comparison_amended :
    ∀ tower : List Word,
      (App.calculate_tower_score tower (some 400)).total_score ≤
        (App.calculate_tower_score tower (some 200)).total_score ∧
      ((App.calculate_tower_score tower (some 400)).total_score <
          (App.calculate_tower_score tower (some 200)).total_score ↔
        10 ≤ (App.calculate_tower_score tower (some 200)).base_score +
          (App.calculate_tower_score tower (some 200)).letter_bonus) := by
  intro tower
  have hb := calculate_tower_score_base tower (some 200)
  have hb' := calculate_tower_score_base tower (some 400)
  have hl := calculate_tower_score_letter tower (some 200)
  have hl' := calculate_tower_score_letter tower (some 400)
  have hs : (App.calculate_tower_score tower (some 200)).speed_bonus =
      ((App.calculate_tower_score tower (some 200)).base_score +
        (App.calculate_tower_score tower (some 200)).letter_bonus) / 10 := by
    rw [calculate_tower_score_speed_some, if_pos (by omega)]
  have hs' : (App.calculate_tower_score tower (some 400)).speed_bonus = 0 := by
    rw [calculate_tower_score_speed_some, if_neg (by omega)]
  have e400 : (App.calculate_tower_score tower (some 400)).total_score =
      (App.calculate_tower_score tower (some 200)).base_score +
        (App.calculate_tower_score tower (some 200)).letter_bonus := by
    rw [calculate_tower_score_total, hs', hb', hl', hb, hl]
    omega
  have e200 : (App.calculate_tower_score tower (some 200)).total_score =
      ((App.calculate_tower_score tower (some 200)).base_score +
          (App.calculate_tower_score tower (some 200)).letter_bonus) +
        ((App.calculate_tower_score tower (some 200)).base_score +
          (App.calculate_tower_score tower (some 200)).letter_bonus) / 10 := by
    rw [calculate_tower_score_total, hs]
  rw [e400, e200]
  constructor
  · exact Nat.le_add_right _ _
  · constructor
    · intro hlt
      by_contra hc
      push_neg at hc
      rw [Nat.div_eq_of_lt hc] at hlt
      omega
    · intro h10
      have hp := Nat.div_pos h10 (by norm_num)
      omega

theorem get_added_letter_eq_none_iff (base cand : Word) :
    App.get_added_letter base cand = none ↔
      (Multiset.ofList (lowerW cand) : Multiset Nat) ≤ Multiset.ofList (lowerW base) := by
  simp only [App.get_added_letter, List.find?_eq_none, List.mem_dedup,
    decide_eq_true_eq, not_lt]
  rw [Multiset.le_iff_count]
  constructor
  · intro h a
    rw [Multiset.coe_count, Multiset.coe_count]
    by_cases ha : a ∈ lowerW cand
    · exact h a ha
    · simp [List.count_eq_zero_of_not_mem ha]
  · intro h a _
    have := h a
    rwa [Multiset.coe_count, Multiset.coe_count] at this

theorem get_added_letter_spec (base cand : Word)
    (h : (App.can_build_word base cand).1 = true) :
    ∃ c, App.get_added_letter base cand = some c ∧
      Multiset.ofList (lowerW base) + {c} = Multiset.ofList (lowerW cand) := by
  obtain ⟨h1, h2, h3⟩ := (can_build_word_fst_iff base cand).mp h
  obtain ⟨a, ha⟩ := Multiset.card_eq_one.mp h3
  have hmem : a ∈ (Multiset.ofList (lowerW cand) : Multiset Nat) -
      Multiset.ofList (lowerW base) := by
    rw [ha]
    exact Multiset.mem_singleton_self a
  have hcount : (lowerW base).count a < (lowerW cand).count a := by
    have hp := Multiset.count_pos.mpr hmem
    rw [Multiset.count_sub, Multiset.coe_count, Multiset.coe_count] at hp
    omega
  have han : a ∈ lowerW cand := by
    by_contra hn
    rw [List.count_eq_zero_of_not_mem hn] at hcount
    omega
  have hfind : ((lowerW cand).dedup.find?
      (fun c => decide ((lowerW base).count c < (lowerW cand).count c))).isSome := by
    rw [List.find?_isSome]
    exact ⟨a, List.mem_dedup.mpr han, by simpa using hcount⟩
  obtain ⟨c, hc⟩ := Option.isSome_iff_exists.mp hfind
  have hpc : (lowerW base).count c < (lowerW cand).count c := by
    simpa using List.find?_some hc
  have hcmem : c ∈ (Multiset.ofList (lowerW cand) : Multiset Nat) -
      Multiset.ofList (lowerW base) := by
    apply Multiset.count_pos.mp
    rw [Multiset.count_sub, Multiset.coe_count, Multiset.coe_count]
    omega
  have hceq : c = a := by
    rw [ha] at hcmem
    simpa using hcmem
  refine ⟨c, ?_, ?_⟩
  · show App.get_added_letter base cand = some c
    simpa [App.get_added_letter] using hc
  · have hadd := tsub_add_cancel_of_le h2
    rw [ha, hceq] at *
    rw [add_comm]
    exact hadd

/-- C2: for all words `base` and `candidate` (words are lowercase),
`canBuild(base, candidate)` holds iff the candidate is one letter longer,
its letter multiset contains the base letter multiset, and the multiset
difference has total size exactly 1; the verdict is invariant under
permutations of the candidate; and `canBuild(w, w)` is always false. -/
theorem c2_canBuild_multiset_characterization :
    (∀ base cand : Word, lowerW base = base → lowerW cand = cand →
      ((App.can_build_word base cand).1 = true ↔
        (cand.length = base.length + 1 ∧
          (Multiset.ofList base : Multiset Nat) ≤ Multiset.ofList cand ∧
          Multiset.card
            ((Multiset.ofList cand : Multiset Nat) - Multiset.ofList base) = 1)))
    ∧ (∀ base cand cand' : Word, cand.Perm cand' →
        (App.can_build_word base cand).1 = (App.can_build_word base cand').1)
    ∧ (∀ w : Word, (App.can_build_word w w).1 = false) := by
  refine ⟨fun base cand hb hn => ?_, fun base cand cand' hp => ?_, fun w => ?_⟩
  · rw [can_build_word_fst_iff, hb, hn]
  · have hp' : (lowerW cand).Perm (lowerW cand') := hp.map lowerCp
    have hms : (Multiset.ofList (lowerW cand) : Multiset Nat) =
        Multiset.ofList (lowerW cand') := Multiset.coe_eq_coe.mpr hp'
    rw [can_build_word_fst, can_build_word_fst, hp'.length_eq]
    congr 1
    · congr 1
      rw [Bool.eq_iff_iff, usesAllBaseLetters_iff, usesAllBaseLetters_iff, hms]
    · rw [decide_eq_decide, addedLetters_length, addedLetters_length, hms]
  · rw [can_build_word_fst]
    simp

/-- C2 witness: the characterization applied at base "art",
candidate "tart". -/
theorem c2_witness :
    tartW.length = artW.length + 1 ∧
      (Multiset.ofList artW : Multiset Nat) ≤ Multiset.ofList tartW ∧
      Multiset.card ((Multiset.ofList tartW : Multiset Nat) - Multiset.ofList artW) = 1 :=
  (c2_canBuild_multiset_characterization.1 artW tartW (by decide) (by decide)).mp
    (by decide)

/-- C9: once the length check and the base-containment check of
`can_build_word` have passed, the added-letter count is necessarily 1,
so the "Must add exactly one new letter" branch is unreachable and
`can_build_word` succeeds exactly on length-plus-one containment;
in multiset terms, `B ≤ N` and `|N| = |B| + 1` force `|N - B| = 1`. -/
theorem c9_one_letter_branch_unreachable :
    (∀ base cand : Word,
      (App.can_build_word base cand).1 = true ↔
        ((lowerW cand).length = (lowerW base).length + 1 ∧
          (Multiset.ofList (lowerW base) : Multiset Nat) ≤ Multiset.ofList (lowerW cand)))
    ∧ (∀ B N : Multiset Nat, B ≤ N → Multiset.card N = Multiset.card B + 1 →
        Multiset.card (N - B) = 1) := by
  have hkey : ∀ B N : Multiset Nat, B ≤ N → Multiset.card N = Multiset.card B + 1 →
      Multiset.card (N - B) = 1 := by
    intro B N h hc
    rw [Multiset.card_sub h, hc]
    omega
  refine ⟨fun base cand => ?_, hkey⟩
  rw [can_build_word_fst_iff]
  constructor
  · rintro ⟨h1, h2, _⟩
    exact ⟨h1, h2⟩
  · rintro ⟨h1, h2⟩
    refine ⟨h1, h2, hkey _ _ h2 ?_⟩
    simpa using h1

/-- C9 witness: the equivalence applied at base "art", candidate "tart". -/
theorem c9_witness : (App.can_build_word artW tartW).1 = true :=
  (c9_one_letter_branch_unreachable.1 artW tartW).mpr
    ⟨by decide, (usesAllBaseLetters_iff (lowerW artW) (lowerW tartW)).mp (by decide)⟩

/-- C4 counterexample: `addedLetter("cat", "dog")` is defined (it
returns the letter d, code point 100) although `canBuild("cat", "dog")`
fails, so `addedLetter` is not defined exactly when `canBuild` succeeds. -/
theorem c4_counterexample :
    App.get_added_letter catW dogW = some 100 ∧
      (App.can_build_word catW dogW).1 = false := by
  constructor <;> decide

/-- C4 (amended): `addedLetter(base, candidate)` returns nothing exactly
when no letter of the candidate exceeds its count in the base (that is,
when the candidate letter multiset is contained in the base letter
multiset) — so it can also be defined on pairs `canBuild` rejects; and
whenever `canBuild(base, candidate)` succeeds it returns a letter such
that adding one occurrence of it to the base letter multiset yields
exactly the candidate letter multiset (all letters lowercased). -/
theorem c4_addedLetter_amended :
    (∀ base cand : Word,
      App.get_added_letter base cand = none ↔
        (Multiset.ofList (lowerW cand) : Multiset Nat) ≤ Multiset.ofList (lowerW base))
    ∧ (∀ base cand : Word, (App.can_build_word base cand).1 = true →
        ∃ c, App.get_added_letter base cand = some c ∧
          Multiset.ofList (lowerW base) + {c} = Multiset.ofList (lowerW cand)) :=
  ⟨get_added_letter_eq_none_iff, get_added_letter_spec⟩

/-- C4 witness: the success clause applied at base "art",
candidate "tart". -/
theorem c4_witness :
    ∃ c, App.get_added_letter artW tartW = some c ∧
      Multiset.ofList (lowerW artW) + {c} = Multiset.ofList (lowerW tartW) :=
  c4_addedLetter_amended.2 artW tartW (by decide)

/-- C1 counterexample: on a session whose `end_time` is already stamped
(state `Ended`), `add_word("tart")` succeeds and mutates the tower
instead of failing with a `GameEnded` error and leaving the state
unchanged. -/
theorem c1_counterexample :
    (App.add_word lexArtTart sessionEnded tartW).1.success = true ∧
      (App.add_word lexArtTart sessionEnded tartW).2 ≠ sessionEnded := by
  constructor <;> decide

/-- C1 (amended): the engine has no `Ended` gating: `end_game` only
records the end timestamp, and the outcome and tower effect of
`add_word`, `undo_last_word`, `get_hint` and `end_game` are independent
of `end_time` — so after `end()` every mutating call behaves exactly as
in the active state (a second `end()` succeeds and recomputes the
score), while the read-only `get_game_state` stays valid and reports
`is_active = false`. -/
theorem c1_no_ended_gating_amended :
    ∀ (lex : List Word) (st : GameState) (w : Word) (e : Option Nat)
      (choose : List Word → Word) (style : String) (now : Nat),
      (App.add_word lex { st with end_time := e } w).1 = (App.add_word lex st w).1 ∧
      (App.add_word lex { st with end_time := e } w).2.tower =
        (App.add_word lex st w).2.tower ∧
      (App.undo_last_word { st with end_time := e }).1 = (App.undo_last_word st).1 ∧
      (App.undo_last_word { st with end_time := e }).2.tower =
        (App.undo_last_word st).2.tower ∧
      (App.get_hint lex choose { st with end_time := e } style).1 =
        (App.get_hint lex choose st style).1 ∧
      (App.end_game { st with end_time := e } now).1 = (App.end_game st now).1 ∧
      (App.get_game_state (App.end_game st now).2).is_active = false := by
  intro lex st w e choose style now
  refine ⟨?_, ?_, ?_, ?_, ?_, rfl, rfl⟩
  · simp only [App.add_word, get_current_word]
    split
    · rfl
    · split
      · rfl
      · split
        · rfl
        · rfl
  · simp only [App.add_word, get_current_word]
    split
    · rfl
    · split
      · rfl
      · split
        · rfl
        · rfl
  · simp only [App.undo_last_word, get_current_word]
    split
    · rfl
    · rfl
  · simp only [App.undo_last_word, get_current_word]
    split
    · rfl
    · rfl
  · simp only [App.get_hint, get_current_word, get_words_of_length]
    split
    · rfl
    · rfl

/-- C10: `add_word` gives the same result and state on any input as on
its whitespace-stripped lowercased form, and it keeps every tower word
lowercase. -/
theorem c10_addWord_normalization :
    (∀ (lex : List Word) (st : GameState) (w : Word),
      App.add_word lex st w = App.add_word lex st (pyStrip (lowerW w)))
    ∧ (∀ (lex : List Word) (st : GameState) (w : Word),
        (∀ u ∈ st.tower, lowerW u = u) →
        ∀ u ∈ (App.add_word lex st w).2.tower, lowerW u = u) := by
  have hcases : ∀ (lex : List Word) (st : GameState) (w : Word),
      (App.add_word lex st w).2.tower = st.tower ∨
        (App.add_word lex st w).2.tower = st.tower ++ [pyStrip (lowerW w)] := by
    intro lex st w
    simp only [App.add_word]
    split
    · exact Or.inl rfl
    · split
      · exact Or.inl rfl
      · split
        · exact Or.inl rfl
        · exact Or.inr rfl
  constructor
  · intro lex st w
    simp only [App.add_word]
    rw [normalize_idem]
  · intro lex st w hst u hu
    rcases hcases lex st w with h | h
    · exact hst u (h ▸ hu)
    · rw [h] at hu
      rcases List.mem_append.mp hu with h2 | h2
      · exact hst u h2
      · rw [List.mem_singleton.mp h2]
        exact lowerW_normalize w

theorem head?_append_of_ne_nil {l₁ l₂ : List Word} (h : l₁ ≠ []) :
    (l₁ ++ l₂).head? = l₁.head? := by
  cases l₁ with
  | nil => exact absurd rfl h
  | cons a t => rfl

theorem head?_dropLast_of_two_le {l : List Word} (h : 2 ≤ l.length) :
    l.dropLast.head? = l.head? := by
  match l, h with
  | a :: b :: t, _ => rfl

/-- C7: every session operation of the `src/app` engine — `add_word`,
`undo_last_word`, `reset_game`, `get_hint`, `end_game` — preserves the
tower invariants: non-empty with the starting word at index 0, no
duplicate word, and every adjacent pair buildable. -/
theorem c7_invariants_preserved :
    ∀ (lex : List Word) (st : GameState) (w : Word) (now : Nat)
      (choose : List Word → Word) (style : String),
      Inv st →
      Inv (App.add_word lex st w).2 ∧
      Inv (App.undo_last_word st).2 ∧
      Inv (App.reset_game st now) ∧
      Inv (App.get_hint lex choose st style).2 ∧
      Inv (App.end_game st now).2 := by
  intro lex st w now choose style hInv
  obtain ⟨hne, hhead, hnd, hch⟩ := hInv
  have hlast : st.tower.getLast? = some (st.tower.getLast hne) :=
    List.getLast?_eq_getLast st.tower hne
  refine ⟨?_, ?_, ?_, ?_, ?_⟩
  · simp only [App.add_word, get_current_word]
    split
    · exact ⟨hne, hhead, hnd, hch⟩
    · split
      · exact ⟨hne, hhead, hnd, hch⟩
      · next hmem =>
        split
        · exact ⟨hne, hhead, hnd, hch⟩
        · next hbuild =>
          have hword : pyStrip (lowerW w) ∉ st.tower := by
            simpa using hmem
          have hb : (App.can_build_word (st.tower.getLast hne)
              (pyStrip (lowerW w))).1 = true := by
            have hb0 := not_not.mp hbuild
            rwa [hlast, Option.getD_some] at hb0
          refine ⟨by simp, ?_, ?_, ?_⟩
          · rw [head?_append_of_ne_nil hne]
            exact hhead
          · rw [List.nodup_append]
            exact ⟨hnd, List.nodup_singleton _, fun a ha hb2 => by
              rw [List.mem_singleton.mp hb2] at ha
              exact hword ha⟩
          · rw [List.chain'_append]
            refine ⟨hch, List.chain'_singleton _, ?_⟩
            intro x hx y hy
            rw [hlast, Option.mem_def, Option.some.injEq] at hx
            rw [List.head?_cons, Option.mem_def, Option.some.injEq] at hy
            rw [← hx, ← hy] at *
            exact hb
  · simp only [App.undo_last_word]
    split
    · exact ⟨hne, hhead, hnd, hch⟩
    · next hlen =>
      have h2 : 2 ≤ st.tower.length := by omega
      have hdne : st.tower.dropLast ≠ [] := by
        have : st.tower.dropLast.length = st.tower.length - 1 := st.tower.length_dropLast
        intro hcon
        rw [hcon] at this
        simp at this
        omega
      refine ⟨hdne, ?_, hnd.sublist (List.dropLast_sublist st.tower), ?_⟩
      · rw [head?_dropLast_of_two_le h2]
        exact hhead
      · have hdecomp := List.dropLast_concat_getLast hne
        rw [← hdecomp] at hch
        exact (List.chain'_append.mp hch).1
  · exact ⟨by simp [App.reset_game], rfl, List.nodup_singleton _,
      List.chain'_singleton _⟩
  · simp only [App.get_hint, get_current_word, get_words_of_length]
    split
    · exact ⟨hne, hhead, hnd, hch⟩
    · exact ⟨hne, hhead, hnd, hch⟩
  · exact ⟨hne, hhead, hnd, hch⟩

/-- C7 witness: the fresh "art" session satisfies the invariants, and
the preservation theorem applied to adding "tart" on it. -/
theorem c7_witness : Inv (App.add_word lexArtTart sessionArt tartW).2 :=
  (c7_invariants_preserved lexArtTart sessionArt tartW 0 chooseHead "smart"
    ⟨by decide, by decide, by decide, List.chain'_singleton _⟩).1

/-- C8: every `get_hint` call, in both engine copies, for every hint
style, every lexicon, every behaviour of the randomness and of the
Datamuse API, and in the no-moves case as well, leaves the session state
exactly as before except that `hints_used` grew by 1 — in particular the
tower is unchanged. -/
theorem c8_hint_increments_and_preserves_tower :
    ∀ (lex : List Word) (choose : List Word → Word) (ext : Root.Ext)
      (st : GameState) (style : String),
      (App.get_hint lex choose st style).2 =
        { st with hints_used := st.hints_used + 1 } ∧
      (Root.get_hint lex ext st style).2 =
        { st with hints_used := st.hints_used + 1 } := by
  intro lex choose ext st style
  constructor
  · simp only [App.get_hint, get_current_word, get_words_of_length]
    split
    · rfl
    · rfl
  · simp only [Root.get_hint, get_current_word, get_words_of_length]
    split
    · rfl
    · rfl

/-- C5 counterexample: on the session started with "art" over a lexicon
with no 4-letter word, both engine copies answer the hint call with a
result whose `success` field is `False` — not a success-shaped result —
and the `src/app` copy returns only a message, with no field carrying
the tower height or the terminal word. -/
theorem c5_counterexample :
    (Root.get_hint lexArtOnly extDefault sessionArt "smart").1.success = false ∧
      (App.get_hint lexArtOnly chooseHead sessionArt "definition").1 =
        .err "No more words possible! Great job reaching the top!" := by
  constructor <;> decide

/-- C5 (amended): on every session whose current word has no legal
successor in the lexicon, `hint()` returns a no-further-moves result
whose `success` field is `False`: the enhanced engine
(`src/game_engine.py`) flags it `no_words_available` and carries the
final tower height and the uppercased terminal word, while the
`src/app/game_engine.py` engine returns only a fixed congratulatory
message, carrying neither. -/
theorem c5_no_moves_result_amended :
    ∀ (lex : List Word) (st : GameState) (ext : Root.Ext)
      (choose : List Word → Word) (style : String),
      (∀ u ∈ lex, u.length = (get_current_word st).length + 1 → u ∉ st.tower →
        (App.can_build_word (get_current_word st) u).1 = false) →
      (Root.get_hint lex ext st style).1.success = false ∧
      (Root.get_hint lex ext st style).1.no_words_available = true ∧
      (Root.get_hint lex ext st style).1.height? = some st.tower.length ∧
      (Root.get_hint lex ext st style).1.finalWord? =
        some (upperW (get_current_word st)) ∧
      (App.get_hint lex choose st style).1 =
        .err "No more words possible! Great job reaching the top!" := by
  intro lex st ext choose style h
  have hnone : ∀ (f : Word → Word → Bool × String),
      (∀ b n, (f b n).1 = (App.can_build_word b n).1) →
      (get_words_of_length lex ((get_current_word st).length + 1)).filter
        (fun w => !st.tower.contains w && (f (get_current_word st) w).1) = [] := by
    intro f hf
    rw [List.filter_eq_nil_iff]
    intro u hu
    rw [get_words_of_length, List.mem_filter] at hu
    obtain ⟨hul, hlen⟩ := hu
    rw [decide_eq_true_eq] at hlen
    by_cases hmem : u ∈ st.tower
    · simp [hmem]
    · have hcb := h u hul hlen hmem
      simp [hmem, hf, hcb]
  have happ := hnone App.can_build_word (fun _ _ => rfl)
  have hroot := hnone Root.can_build_word root_can_build_word_fst
  refine ⟨?_, ?_, ?_, ?_, ?_⟩
  · simp only [Root.get_hint]
    rw [hroot]
    rfl
  · simp only [Root.get_hint]
    rw [hroot]
    rfl
  · simp only [Root.get_hint]
    rw [hroot]
    rfl
  · simp only [Root.get_hint]
    rw [hroot]
    rfl
  · simp only [App.get_hint]
    rw [happ]
    rfl

/-- C5 witness: the amended no-moves clause applied to the "art" session
over the one-word lexicon. -/
theorem c5_witness :
    (Root.get_hint lexArtOnly extDefault sessionArt "smart").1.no_words_available
      = true :=
  (c5_no_moves_result_amended lexArtOnly sessionArt extDefault chooseHead "smart"
    (by decide)).2.1

/-- C10 witness: adding "tart" to the fresh "art" session keeps every
tower word lowercase; in particular the stored word "tart" is its own
lowercasing. -/
theorem c10_witness : lowerW tartW = tartW :=
  c10_addWord_normalization.2 lexArtTart sessionArt tartW (by decide) tartW (by decide)

end WordRise
